import Mathlib

/-
Verification of the line-oriented file editor (src/editor.c) against its
natural-language specification.

Modelling conventions, shared by every definition below:

* A file is a finite byte stream, embedded as `List Nat` (each element one
  byte of the file, 0 ≤ b ≤ 255).
* The C code stores the result of `getc` in a variable of type `char`
  (signed on the target platform).  We embed that variable as an `Int`:
  a byte `b` becomes `toChar b` (twos-complement truncation to 8 signed
  bits) and end-of-file becomes `-1`, exactly the value `EOF` the code
  compares against.  Consequently a byte 0xFF read from a file is
  indistinguishable from `EOF`, as in the compiled program.
* `fputc(c, f)` writes the byte `putc c` = `c mod 256`, so `fputc(EOF, f)`
  writes the byte 255, as the C library does.
* Each mutating operation validates its line number and then streams the
  source into a scratch file; the embedding returns the scratch content
  (`Except` for the validated operations).  Environment failures (fopen,
  remove, rename) abort the C program before or after the whole rewrite
  and are outside the byte-level semantics modelled here.
-/

namespace Editor

/-- Line-terminator byte as seen through the `char`-typed read variable. -/
def NL : Int := 10

/-- The `EOF` sentinel returned by `getc`. -/
def EOFc : Int := -1

/-- Retention cap on the audit log (enum constant `CLOG_BUFFER`). -/
def CLOG_BUFFER : Nat := 200

/-- Maximum length of a log line (enum constant `LOGLEN`). -/
def LOGLEN : Nat := 2560

/-- Value of the `char`-typed variable after `c = getc(f)` read byte `b`:
signed 8-bit reinterpretation of the byte. -/
def toChar (b : Nat) : Int :=
  if b % 256 < 128 then ((b % 256 : Nat) : Int) else ((b % 256 : Nat) : Int) - 256

/-- Byte written by `fputc(c, f)` when `c` holds the `char` value `c`. -/
def putc (c : Int) : Nat := (c % 256).toNat

/-- Loop body of `count_lines` (editor.c:165-183): reads characters until
`EOF`, counting the first non-`EOF` character as opening line 1 and every
newline as opening a further line. -/
def count_go (first : Bool) (lines : Nat) : List Nat → Nat
  | [] => lines
  | b :: bs =>
    let c := toChar b
    if c = EOFc then lines
    else
      let lines1 := if first then lines + 1 else lines
      let lines2 := if c = NL then lines1 + 1 else lines1
      count_go false lines2 bs

/-- Function count_lines (editor.c:165-183): number of lines reported for a file. -/
def count_lines (f : List Nat) : Nat := count_go true 0 f

/-- Failure cases of `verify_lines` (both reported as `-1` plus a message in
the C code; the message distinguishes them). -/
inductive VErr where
  | tooLong (line : Nat)
  | nulByte
deriving DecidableEq

/-- Loop body of `verify_lines` (editor.c:198-233): like `count_go` but the
running line length (terminator included) is compared against `maxv` at each
newline, and a NUL byte anywhere fails. -/
def verify_go (maxv : Nat) (first : Bool) (lines linelen : Nat) :
    List Nat → Except VErr Nat
  | [] => .ok lines
  | b :: bs =>
    let c := toChar b
    if c = EOFc then .ok lines
    else
      let linelen1 := linelen + 1
      let lines1 := if first then lines + 1 else lines
      if c = NL then
        if linelen1 > maxv then .error (.tooLong lines1)
        else verify_go maxv false (lines1 + 1) 0 bs
      else if c = 0 then .error .nulByte
      else verify_go maxv false lines1 linelen1 bs

/-- Function verify_lines (editor.c:198-233): line count of a file that is safe for
`fgets`, or the reason it is rejected. -/
def verify_lines (maxv : Nat) (f : List Nat) : Except VErr Nat :=
  verify_go maxv true 0 0 f

/-- The only validation failure of the line operations
(`Invalid Input: Line number out of range for file.`). -/
inductive EditErr where
  | lineOutOfRange
deriving DecidableEq

/-- Rewrite loop of `del_line` (editor.c:928-939).  `count` is incremented
when a newline is read, before the write decision; a character is copied
unless the (updated) `count` equals `lineno`, or it is the newline read when
`count` just became `lineno + 1`. -/
def del_go (lineno count : Nat) : List Nat → List Nat
  | [] => []
  | b :: bs =>
    let c := toChar b
    let count1 := if c = NL then count + 1 else count
    if c = EOFc then []
    else if count1 ≠ lineno ∧ (count1 ≠ lineno + 1 ∨ c ≠ NL) then
      putc c :: del_go lineno count1 bs
    else
      del_go lineno count1 bs

/-- Function del_line (editor.c:901-963): validate `lineno` against the counted
lines, then stream the file into the scratch file through `del_go`. -/
def del_line (f : List Nat) (lineno : Nat) : Except EditErr (List Nat) :=
  if lineno > count_lines f then .error .lineOutOfRange
  else .ok (del_go lineno 1 f)

/-- Rewrite loop of `ins_line` (editor.c:1010-1028), in the copy phase
(`count` differs from `lineno` at entry).  Each iteration reads a character,
copies it unless it is `EOF`, increments `count` at a newline, and when
`count` has just reached `lineno` writes the new line plus a terminator in
the same iteration before continuing to copy.  The C loop also runs a first
iteration with `count = lineno` when `lineno = 1`; that case is unfolded in
`ins_line` below (its loop guard then reads the uninitialised `c`, which we
take to differ from `EOF`, as on every run of the compiled program). -/
def ins_go (text : List Nat) (lineno : Nat) (count : Nat) :
    List Nat → List Nat
  | [] => []
  | b :: bs =>
    let c := toChar b
    if c = EOFc then []
    else
      let count1 := if c = NL then count + 1 else count
      if count1 = lineno then
        putc c :: (text ++ (10 : Nat) :: ins_go text lineno (count1 + 1) bs)
      else
        putc c :: ins_go text lineno count1 bs

/-- Function ins_line (editor.c:982-1052): validate `lineno` (the code
accepts `lineno ≤ count_lines f`, editor.c:988-995), then rewrite through
the insertion loop. -/
def ins_line (f text : List Nat) (lineno : Nat) : Except EditErr (List Nat) :=
  if lineno > count_lines f then .error .lineOutOfRange
  else .ok (if lineno = 1 then text ++ (10 : Nat) :: ins_go text lineno 2 f
            else ins_go text lineno 1 f)

/-- Inner skip loop of `rep_line` (editor.c:1115-1117): read characters of
the original file until a newline or `EOF`; returns the final value of `c`
and the unread remainder. -/
def skip_go : List Nat → Int × List Nat
  | [] => (EOFc, [])
  | b :: bs =>
    let c := toChar b
    if c = NL ∨ c = EOFc then (c, bs) else skip_go bs

/-- Rewrite loop of `rep_line` (editor.c:1100-1123), in the copy phase
(`count` differs from `lineno` at entry).  Each iteration reads a character
and writes it back with `fputc(c, temp)` UNCONDITIONALLY, so reading `EOF`
writes the byte 255 (`putc EOFc`).  When `count` has just reached `lineno`
the loop skips the original line through its terminator (`skip_go`), writes
the replacement text, re-emits the terminator exactly when one was found,
and exits without a further read if the skip ended at `EOF`.  The first
iteration of the C loop runs with `count = lineno` when `lineno = 1`; that
case is unfolded in `rep_line` below.  The first argument is a structural
bound on the iteration count: every iteration consumes at least one byte of
the remaining input, so with the length of the input as bound the
fuel-exhausted arm is never reached. -/
def rep_go (text : List Nat) (lineno : Nat) : Nat → Nat → List Nat → List Nat
  | _, _, [] => [putc EOFc]
  | 0, _, _ :: _ => []
  | fuel + 1, count, b :: bs =>
    let c := toChar b
    if c = EOFc then [putc c]
    else
      let count1 := if c = NL then count + 1 else count
      if count1 = lineno then
        putc c :: (text ++ (if (skip_go bs).1 = NL then [(10 : Nat)] else [])
          ++ (if (skip_go bs).1 = EOFc then []
              else rep_go text lineno fuel (count1 + 1) (skip_go bs).2))
      else
        putc c :: rep_go text lineno fuel count1 bs

/-- Function rep_line (editor.c:1072-1147): validate `lineno`, then rewrite
through the replacement loop. -/
def rep_line (f text : List Nat) (lineno : Nat) : Except EditErr (List Nat) :=
  if lineno > count_lines f then .error .lineOutOfRange
  else .ok (if lineno = 1 then
      text ++ (if (skip_go f).1 = NL then [(10 : Nat)] else [])
        ++ (if (skip_go f).1 = EOFc then []
            else rep_go text 1 f.length 2 (skip_go f).2)
    else rep_go text lineno f.length 1 f)

/-- Function is_empty (editor.c:143-153): a file of size at most ONE byte is
reported empty (`sb.st_size <= 1`). -/
def is_empty (f : List Nat) : Bool := f.length ≤ 1

/-- Function append_line (editor.c:802-831): open in append mode, write the
text with a leading newline unless `is_empty` holds, then recount the lines
of the result for the log message.  Returns the new content and the
reported count. -/
def append_line (f text : List Nat) : List Nat × Nat :=
  let f1 := if is_empty f then f ++ text else f ++ (10 : Nat) :: text
  (f1, count_lines f1)

/-- One call of `fgets(buf, fuel + 1, f)`: read at most `fuel` bytes,
stopping after a newline; returns the bytes read and the rest of the
stream.  (`fgets` works below the `char`-typed loops, so it does not
confuse byte 255 with `EOF`.) -/
def fgets_go (fuel : Nat) : List Nat → List Nat × List Nat
  | [] => ([], [])
  | b :: bs =>
    match fuel with
    | 0 => ([], b :: bs)
    | fuel + 1 =>
      if b = 10 then ([b], bs)
      else ((fgets_go fuel bs).1.cons b, (fgets_go fuel bs).2)

/-- Loop that drains a stream through successive `fgets` calls.  The first
argument is a structural bound on the number of calls: every successful
`fgets` consumes at least one byte, so with the length of the input as
bound the fuel-exhausted arm is never reached. -/
def fsplit_go : Nat → List Nat → List (List Nat)
  | _, [] => []
  | 0, _ :: _ => []
  | fuel + 1, b :: bs =>
    (fgets_go 2558 (b :: bs)).1 :: fsplit_go fuel (fgets_go 2558 (b :: bs)).2

/-- Sequence of lines returned by the `fgets(line, LOGLEN - 1, fptr)` loops
of `truncate_log` and `display_log` (buffer drain: each call reads at most
`LOGLEN - 2 = 2558` bytes, through the first newline). -/
def fsplit (l : List Nat) : List (List Nat) := fsplit_go l.length l

/-- Filtering loop of `truncate_log` (editor.c:462-466): while the running
`logs` counter exceeds `CLOG_BUFFER - 10` the line is dropped and the
counter decremented; afterwards lines are copied. -/
def trunc_keep (logs : Int) : List (List Nat) → List Nat
  | [] => []
  | l :: ls =>
    if logs > (CLOG_BUFFER : Int) - 10 then trunc_keep (logs - 1) ls
    else l ++ trunc_keep logs ls

/-- Outcome of one run of `truncate_log`. -/
inductive TruncResult where
  | tampered
  | untouched
  | rewritten (newLog : List Nat)
deriving DecidableEq

/-- Function truncate_log (editor.c:430-488): verify the log for `fgets`
safety (limit `LOGLEN - 2`); on failure warn and quit (`tampered`).  If the
verified line count exceeds `CLOG_BUFFER`, rewrite through a scratch file
(`rewritten`); otherwise close the log with no write at all (`untouched`). -/
def truncate_log (log : List Nat) : TruncResult :=
  match verify_lines (LOGLEN - 2) log with
  | .error _ => .tampered
  | .ok logs =>
    if (logs : Int) > (CLOG_BUFFER : Int) then
      .rewritten (trunc_keep logs (fsplit log))
    else .untouched

/-- Function change_log (editor.c:500-518): append the formatted entry (the
timestamp prefix is part of `entry` here) plus a newline to the log, then
run `truncate_log`.  Returns the resulting log content, or `none` when
`truncate_log` found the log tampered and the program quit. -/
def change_log (log entry : List Nat) : Option (List Nat) :=
  let log1 := log ++ entry ++ [(10 : Nat)]
  match truncate_log log1 with
  | .tampered => none
  | .untouched => some log1
  | .rewritten c => some c

/-- Index of the first occurrence of `pat` in a line, as computed by
`strstr` (editor.c:573): the least index at which `pat` is a prefix of the
rest of the line. -/
def firstOccur (pat : List Nat) : List Nat → Option Nat
  | [] => if pat = [] then some 0 else none
  | b :: bs =>
    if pat <+: (b :: bs) then some 0
    else (firstOccur pat bs).map (· + 1)

/-- Search key built by `display_log` (editor.c:560): the bytes of
`File` + space + quote + path + quote, where quote is the single-quote
byte 39. -/
def marker (fpath : List Nat) : List Nat :=
  [70, 105, 108, 101, 32, 39] ++ fpath ++ [39]

/-- C string held by the `fgets` buffer for a line: `fgets` stores every
byte it reads (it does not stop at a NUL byte), but the string functions
applied to the buffer afterwards only see the bytes before the first NUL
byte of the line. -/
def cstr : List Nat → List Nat
  | [] => []
  | b :: bs => if b = 0 then [] else b :: cstr bs

/-- Per-line decision of the filtered branch of `display_log`
(editor.c:573-583): `strstr` and `strchr` act on the C string in the
`fgets` buffer, i.e. on the bytes of the line before its first NUL byte.
The line is printed iff the key occurs in that prefix and, when the prefix
contains a double-quote byte 34 (`strchr`), the first key occurrence
starts strictly before the first double-quote.  (A NUL byte can reach this
loop: the `char`-typed scan of `verify_lines` stops at a byte 255 and
reports the log safe without seeing what follows.) -/
def display_selected (key l : List Nat) : Bool :=
  match firstOccur key (cstr l) with
  | none => false
  | some i =>
    match firstOccur [34] (cstr l) with
    | none => true
    | some q => decide (i < q)

/-- Function display_log (editor.c:533-589): verify the log, then print all
lines (no filter) or only the lines selected by `display_selected` for the
key `marker fpath`. -/
def display_log (log : List Nat) (fpath : Option (List Nat)) :
    Except VErr (List (List Nat)) :=
  match verify_lines (LOGLEN - 2) log with
  | .error e => .error e
  | .ok _ =>
    match fpath with
    | none => .ok (fsplit log)
    | some p => .ok ((fsplit log).filter (display_selected (marker p)))

/-- Number of line-terminator bytes in a file (spec-side helper for the
counting claims). -/
def nlCount : List Nat → Nat
  | [] => 0
  | b :: bs => (if b = 10 then 1 else 0) + nlCount bs

/-- Line count formula asserted by the spec for `count_lines`: the number
of terminator occurrences, plus one further line exactly when the file is
non-empty and its last byte is not a terminator. -/
def spec_count (f : List Nat) : Nat :=
  nlCount f + (if f ≠ [] ∧ f.getLast? ≠ some 10 then 1 else 0)

/-- Occurrence of `pat` at index `i` of `l` (spec-side reading of a
substring match). -/
def occursAt (pat l : List Nat) (i : Nat) : Prop := pat <+: l.drop i

/-- Selection predicate asserted by the spec for the filtered log display:
the key occurs in the line, and the FIRST occurrence of the key starts
strictly before the first double-quote byte of the line (vacuously when
the line holds no double-quote byte). -/
def specSelected (key l : List Nat) : Prop :=
  ∃ i, occursAt key l i ∧ (∀ j, occursAt key l j → i ≤ j) ∧
    ∀ q, occursAt [34] l q → (∀ r, occursAt [34] l r → q ≤ r) → i < q

/- ------------------------------------------------------------------ -/
/- Helper lemmas                                                       -/
/- ------------------------------------------------------------------ -/

theorem toChar_ne_eof {b : Nat} (h : b < 255) : toChar b ≠ EOFc := by
  unfold toChar EOFc
  have hb : b % 256 = b := Nat.mod_eq_of_lt (by omega)
  rw [hb]
  split <;> omega

theorem toChar_nl_iff {b : Nat} (h : b < 255) : toChar b = NL ↔ b = 10 := by
  unfold toChar NL
  have hb : b % 256 = b := Nat.mod_eq_of_lt (by omega)
  rw [hb]
  split <;> constructor <;> intro h2 <;> omega

theorem count_go_cont : ∀ l : List Nat, (∀ b ∈ l, b < 255) →
    ∀ n : Nat, count_go false n l = n + nlCount l := by
  intro l
  induction l with
  | nil => intro _ n; rfl
  | cons b bs ih =>
    intro h n
    have hb : b < 255 := h b (List.mem_cons_self b bs)
    have hbs : ∀ x ∈ bs, x < 255 := fun x hx => h x (List.mem_cons_of_mem b hx)
    simp only [count_go, nlCount, if_neg (toChar_ne_eof hb), Bool.false_eq_true,
      if_false]
    by_cases hnl : toChar b = NL
    · have hb10 : b = 10 := (toChar_nl_iff hb).mp hnl
      rw [if_pos hnl, if_pos hb10, ih hbs]
      omega
    · have hb10 : b ≠ 10 := fun e => hnl ((toChar_nl_iff hb).mpr e)
      rw [if_neg hnl, if_neg hb10, ih hbs]
      omega

theorem occursAt_zero {pat l : List Nat} : occursAt pat l 0 ↔ pat <+: l := by
  simp [occursAt]

theorem occursAt_succ {pat : List Nat} {b : Nat} {bs : List Nat} {j : Nat} :
    occursAt pat (b :: bs) (j + 1) ↔ occursAt pat bs j := by
  simp [occursAt]

theorem firstOccur_some : ∀ l pat : List Nat, ∀ i : Nat,
    firstOccur pat l = some i →
    occursAt pat l i ∧ ∀ j, occursAt pat l j → i ≤ j := by
  intro l
  induction l with
  | nil =>
    intro pat i h
    simp only [firstOccur] at h
    split at h
    · rename_i hp
      cases h
      refine ⟨?_, fun j _ => Nat.zero_le j⟩
      subst hp
      exact occursAt_zero.mpr List.nil_prefix
    · cases h
  | cons b bs ih =>
    intro pat i h
    simp only [firstOccur] at h
    split at h
    · rename_i hp
      cases h
      exact ⟨occursAt_zero.mpr hp, fun j _ => Nat.zero_le j⟩
    · rename_i hnp
      obtain ⟨i0, h0, rfl⟩ : ∃ i0, firstOccur pat bs = some i0 ∧ i0 + 1 = i := by
        cases hfo : firstOccur pat bs with
        | none => rw [hfo] at h; cases h
        | some k =>
          rw [hfo] at h
          simp only [Option.map_some'] at h
          cases h
          exact ⟨k, rfl, rfl⟩
      obtain ⟨hocc, hmin⟩ := ih pat i0 h0
      refine ⟨occursAt_succ.mpr hocc, ?_⟩
      intro j hj
      cases j with
      | zero => exact absurd (occursAt_zero.mp hj) hnp
      | succ j0 => exact Nat.succ_le_succ (hmin j0 (occursAt_succ.mp hj))

theorem firstOccur_none : ∀ l pat : List Nat,
    firstOccur pat l = none → ∀ j, ¬ occursAt pat l j := by
  intro l
  induction l with
  | nil =>
    intro pat h j hj
    simp only [firstOccur] at h
    split at h
    · cases h
    · rename_i hne
      exact hne (List.prefix_nil.mp (by simpa [occursAt] using hj))
  | cons b bs ih =>
    intro pat h j hj
    simp only [firstOccur] at h
    split at h
    · cases h
    · rename_i hnp
      have h0 : firstOccur pat bs = none := by
        cases hfo : firstOccur pat bs with
        | none => rfl
        | some k => rw [hfo] at h; cases h
      cases j with
      | zero => exact hnp (occursAt_zero.mp hj)
      | succ j0 => exact ih pat h0 j0 (occursAt_succ.mp hj)

/- ------------------------------------------------------------------ -/
/- Claim theorems                                                      -/
/- ------------------------------------------------------------------ -/

/-- Claim C1: deleting an in-range line is claimed to drop only that line
and its one terminator.  Evaluating the code on the 3-line file
A-newline-B-newline-C at line 2 shows it also drops the terminator of
line 1: the result is AC (one line), not A-newline-C (two lines), so the
claimed byte-exactness and the claimed count of original minus 1 both
fail. -/
theorem c1_del_line_merges_adjacent_lines :
    del_line [65, 10, 66, 10, 67] 2 = Except.ok [65, 67] := rfl

/-- Claim C2: inserting at line 2 of the file A-newline-B and then deleting
line 2 is claimed to restore the file; the code instead returns AB,
because the deletion also removes the terminator of line 1. -/
theorem c2_insert_then_delete_not_identity :
    ins_line [65, 10, 66] [88] 2 = Except.ok [65, 10, 88, 10, 66] ∧
      del_line [65, 10, 88, 10, 66] 2 = Except.ok [65, 66] :=
  ⟨rfl, rfl⟩

/-- Claim C3: replacing line 1 of the 2-line file A-newline-B with X is
claimed to write only X, the terminator and line 2; the code additionally
writes the byte 255 at the end, from `fputc(c, temp)` executed on the
`EOF` value. -/
theorem c3_rep_line_appends_stray_byte :
    rep_line [65, 10, 66] [88] 1 = Except.ok [88, 10, 66, 255] := rfl

/-- Claim C4, counterexample: on the 1-line file A, deleting line 0 is
claimed to fail (0 violates 1 ≤ lineno) but succeeds, and inserting at
line 2 = count + 1 is claimed to succeed but fails. -/
theorem c4_range_check_cex :
    del_line [65] 0 = Except.ok [65] ∧
      ins_line [65] [88] 2 = Except.error EditErr.lineOutOfRange ∧
      count_lines [65] = 1 :=
  ⟨rfl, rfl, rfl⟩

/-- Claim C4 as amended: all three line operations fail with the
line-out-of-range error exactly when the requested line number exceeds the
counted lines (so line number 0 is always accepted, and insertion rejects
count + 1); the check precedes the rewrite, so on failure no content is
produced. -/
theorem c4_range_check_amended (f text : List Nat) (n : Nat) :
    (del_line f n = Except.error EditErr.lineOutOfRange ↔ count_lines f < n) ∧
    (rep_line f text n = Except.error EditErr.lineOutOfRange ↔ count_lines f < n) ∧
    (ins_line f text n = Except.error EditErr.lineOutOfRange ↔ count_lines f < n) := by
  refine ⟨?_, ?_, ?_⟩ <;>
    · by_cases hgt : count_lines f < n
      · simp [del_line, rep_line, ins_line, gt_iff_lt, hgt]
      · simp [del_line, rep_line, ins_line, gt_iff_lt, hgt]

/-- Claim C5: appending is claimed to add a terminator exactly when the
file is non-empty and to raise the line count by 1.  On the 1-byte file
with content a, `is_empty` is true (the code treats size ≤ 1 as empty), so
the text is appended with no terminator and the count stays 1 instead of
becoming 2. -/
theorem c5_append_one_byte_file :
    count_lines [97] = 1 ∧ append_line [97] [104, 105] = ([97, 104, 105], 1) :=
  ⟨rfl, rfl⟩

/-- Claim C6, counterexample: on the file holding one byte a followed by
one terminator, the claimed formula gives 1 line (one terminator, trailing
terminator present) while `count_lines` returns 2 (the empty segment after
the trailing terminator is counted). -/
theorem c6_count_lines_cex :
    count_lines [97, 10] = 2 ∧ spec_count [97, 10] = 1 :=
  ⟨rfl, by decide⟩

/-- Claim C6 as amended: on a file free of the byte 255 (which the
`char`-typed scan cannot distinguish from `EOF`), `count_lines` returns 0
for the empty file and otherwise one more than the number of terminator
bytes, so a trailing terminator opens a counted empty final line; the scan
never fails. -/
theorem c6_count_lines_amended (f : List Nat) (h : ∀ b ∈ f, b < 255) :
    count_lines f = if f = [] then 0 else nlCount f + 1 := by
  cases f with
  | nil => rfl
  | cons b bs =>
    have hb : b < 255 := h b (List.mem_cons_self b bs)
    have hbs : ∀ x ∈ bs, x < 255 := fun x hx => h x (List.mem_cons_of_mem b hx)
    have hne := toChar_ne_eof hb
    have hrec := count_go_cont bs hbs
    by_cases hnl : toChar b = NL
    · have hb10 : b = 10 := (toChar_nl_iff hb).mp hnl
      subst hb10
      simp only [count_lines, count_go, if_neg hne, if_pos hnl, if_true,
        nlCount, List.cons_ne_nil, if_false, hrec]
      omega
    · have hb10 : b ≠ 10 := fun e => hnl ((toChar_nl_iff hb).mpr e)
      simp only [count_lines, count_go, if_neg hne, if_neg hnl, if_true,
        nlCount, List.cons_ne_nil, if_false, if_neg hb10, hrec]
      omega

/-- Witness for the amended claim C6 at the concrete file of C6. -/
theorem c6_count_lines_amended_witness :
    count_lines [97, 10] =
      if ([97, 10] : List Nat) = [] then 0 else nlCount [97, 10] + 1 :=
  c6_count_lines_amended [97, 10] (by decide)

set_option maxRecDepth 8000 in
/-- Claim C7: appending the 201st entry to a log of 200 one-byte entries is
claimed to leave CLOG_BUFFER - 10 = 190 entries; the code leaves 189,
because `verify_lines` counts the empty segment after the trailing
terminator as one extra line, so one extra entry is dropped (and
truncation already fires at 200 entries, not only above 200). -/
theorem c7_retention_keeps_189 :
    change_log (List.replicate 200 10) [] = some (List.replicate 189 10) := by
  decide

/-- Claim C8: `verify_lines` is claimed to reject any line longer than the
limit, including an unterminated final line.  With limit 3, the 5-byte
unterminated file abcde passes (returning count 1), because the length
check only runs when a terminator is read; the terminated file abc-newline
is rejected as claimed. -/
theorem c8_unterminated_line_unchecked :
    verify_lines 3 [97, 98, 99, 100, 101] = Except.ok 1 ∧
      verify_lines 3 [97, 98, 99, 10] = Except.error (VErr.tooLong 1) :=
  ⟨rfl, rfl⟩

/-- Claim C9, counterexample: the log whose single line is the byte 255, a
NUL byte, the marker for the path p and a terminator passes `verify_lines`
(the `char`-typed scan reads the 255 byte as `EOF` and stops), and the
line contains the marker with no double-quote byte anywhere, so the claim
says the filtered display prints it; but `strstr` stops at the NUL byte in
the `fgets` buffer, never sees the marker, and the display prints
nothing. -/
theorem c9_display_filter_cex :
    verify_lines (LOGLEN - 2)
        [255, 0, 70, 105, 108, 101, 32, 39, 112, 39, 10] = Except.ok 0 ∧
      display_log [255, 0, 70, 105, 108, 101, 32, 39, 112, 39, 10]
        (some [112]) = Except.ok [] ∧
      specSelected (marker [112])
        [255, 0, 70, 105, 108, 101, 32, 39, 112, 39, 10] := by
  refine ⟨rfl, rfl, ?_⟩
  obtain ⟨hocc, hmin⟩ :=
    firstOccur_some [255, 0, 70, 105, 108, 101, 32, 39, 112, 39, 10]
      (marker [112]) 2 (by decide)
  exact ⟨2, hocc, hmin, fun q hq _ =>
    absurd hq (firstOccur_none [255, 0, 70, 105, 108, 101, 32, 39, 112, 39, 10]
      [34] (by decide) q)⟩

/-- Claim C9 as amended: a log line is selected by the filtered display
exactly when the marker occurs in the C string the `fgets` buffer holds
for the line (its bytes before the first NUL byte) and the first marker
occurrence there starts strictly before the first double-quote byte of
that prefix (vacuously when the prefix has no double-quote byte); in
particular a line whose quoted literal text merely contains the path, with
no marker before the first quote, is never selected. -/
theorem c9_display_filter_amended (fpath l : List Nat) :
    display_selected (marker fpath) l = true ↔
      specSelected (marker fpath) (cstr l) := by
  unfold display_selected specSelected
  cases hk : firstOccur (marker fpath) (cstr l) with
  | none =>
    simp only [hk]
    constructor
    · intro h; exact absurd h (by simp)
    · rintro ⟨i, hi, -⟩
      exact absurd hi (firstOccur_none (cstr l) (marker fpath) hk i)
  | some i =>
    obtain ⟨hocc, hmin⟩ := firstOccur_some (cstr l) (marker fpath) i hk
    cases hq : firstOccur [34] (cstr l) with
    | none =>
      have hnoq := firstOccur_none (cstr l) [34] hq
      simp only [hk, hq]
      constructor
      · intro _
        exact ⟨i, hocc, hmin, fun q hqocc _ => absurd hqocc (hnoq q)⟩
      · intro _; trivial
    | some q =>
      obtain ⟨hqocc, hqmin⟩ := firstOccur_some (cstr l) [34] q hq
      simp only [hk, hq, decide_eq_true_eq]
      constructor
      · intro hiq
        refine ⟨i, hocc, hmin, ?_⟩
        intro r hrocc hrmin
        have h1 : r ≤ q := hrmin q hqocc
        have h2 : q ≤ r := hqmin r hrocc
        omega
      · rintro ⟨i2, hocc2, hmin2, hlt⟩
        have e1 : i ≤ i2 := hmin i2 hocc2
        have e2 : i2 ≤ i := hmin2 i hocc
        have hiq : i2 < q := hlt q hqocc hqmin
        omega

/-- Claim C10: when the log passes its safety check with a counted total of
at most CLOG_BUFFER lines, `truncate_log` takes the no-write branch: the
log is left untouched and no scratch file is involved (the rewrite branch
requires the counted total to exceed CLOG_BUFFER). -/
theorem c10_truncate_no_write (log : List Nat) (n : Nat)
    (hv : verify_lines (LOGLEN - 2) log = Except.ok n) (hle : n ≤ CLOG_BUFFER) :
    truncate_log log = TruncResult.untouched := by
  simp only [truncate_log, hv]
  have hni : ¬ ((n : Int) > (CLOG_BUFFER : Int)) := by
    unfold CLOG_BUFFER at hle ⊢
    omega
  rw [if_neg hni]

/-- Witness for claim C10 at a 1-entry log. -/
theorem c10_truncate_no_write_witness :
    verify_lines (LOGLEN - 2) [10] = Except.ok 2 ∧ 2 ≤ CLOG_BUFFER ∧
      truncate_log [10] = TruncResult.untouched :=
  ⟨rfl, by decide, c10_truncate_no_write [10] 2 rfl (by decide)⟩

end Editor
